import Mathlib

/-!
Verification development for the mkchlog changelog assembly engine.

The embedding translates `src/changelog.rs` (the commit-metadata parser
`CommitChangelog`, the aggregation buckets `Changes`, and the top-level
`Changelog::generate` loop and renderer) together with the strict
serde-based metadata schema of `src/changelog/parser.rs`.

Strings are modelled by Lean's `String` (a structure over `List Char`), and
every string manipulation used by the code (trim, lines, split, prefix
tests) is defined here by structural recursion over the underlying
character list, so that all definitions evaluate inside the kernel.
Rust's Unicode whitespace class is restricted to its ASCII part
(space, tab, newline, carriage return, vertical tab, form feed), which is
the alphabet the claims exercise; `\r` is stripped upstream by
`Commit::new` before any of the embedded code runs.
-/

/-- Whitespace test used both for Rust's `str::trim` and for the regex
class `\s` (ASCII part of Unicode whitespace). -/
def isWs (c : Char) : Bool :=
  c == ' ' || c == '\t' || c == '\n' || c == '\r' || c == '\x0b' || c == '\x0c'

/-- Rust `str::trim`: drop whitespace from both ends. -/
def strTrim (s : String) : String :=
  ⟨((s.data.dropWhile isWs).reverse.dropWhile isWs).reverse⟩

/-- Emptiness test on strings (Rust `str::is_empty`). -/
def strIsEmpty (s : String) : Bool :=
  s.data.isEmpty

/-- Prefix test on character lists. -/
def pfxMatch : List Char → List Char → Bool
  | [], _ => true
  | _ :: _, [] => false
  | a :: as, b :: bs => a == b && pfxMatch as bs

/-- Rust `str::starts_with`. -/
def strStartsWith (s pfx : String) : Bool :=
  pfxMatch pfx.data s.data

/-- Split a character list on every occurrence of a separator character
(Rust `str::split`). Always returns a non-empty list of parts. -/
def splitOnChar (c : Char) : List Char → List (List Char)
  | [] => [[]]
  | x :: xs =>
    let r := splitOnChar c xs
    if x == c then [] :: r
    else
      match r with
      | [] => [[x]]
      | h :: t => (x :: h) :: t

/-- Rust `str::lines`: split on newline, a trailing newline producing no
final empty line. -/
def rustLines (s : String) : List String :=
  match s.data with
  | [] => []
  | _ =>
    let parts := (splitOnChar '\n' s.data).map (fun l => (⟨l⟩ : String))
    if s.data.getLast? == some '\n' then parts.dropLast else parts

/-- Characters admitted by the keyword regex class `[a-z-]`. -/
def isLowerOrDash (c : Char) : Bool :=
  c.isLower || c == '-'

/-- Test for the keyword regex `^[a-z-]+:` of `CommitChangelog::new`:
the line starts with one or more lowercase letters or dashes followed by
a colon. -/
def isKeywordLine (line : String) : Bool :=
  match line.data.dropWhile isLowerOrDash with
  | ':' :: _ => !(line.data.takeWhile isLowerOrDash).isEmpty
  | _ => false

/-- Line preprocessing of `CommitChangelog::new`: trim every line of the
commit's changelog message; a line that does not start with a keyword is
appended (space-separated) to the previous line, removing hard wrapping. -/
def changelogLines (block : String) : List String :=
  match (rustLines block).map strTrim with
  | [] => []
  | first :: rest =>
    rest.foldl
      (fun acc line =>
        if isKeywordLine line then acc ++ [line]
        else
          let prev := (acc.getLast?).getD ""
          acc.dropLast ++ [prev ++ " " ++ line])
      [first]

/-- Break a character list at the first occurrence of a character
(the search step of Rust `str::split_once`). -/
def breakAt (c : Char) : List Char → List Char × List Char
  | [] => ([], [])
  | x :: xs =>
    if x == c then ([], x :: xs)
    else
      let r := breakAt c xs
      (x :: r.1, r.2)

/-- Rust `str::split_once`: split at the first occurrence of the
separator, or `none` if it does not occur. -/
def split_once (s : String) (c : Char) : Option (String × String) :=
  match breakAt c s.data with
  | (_, []) => none
  | (before, _ :: after) => some (⟨before⟩, ⟨after⟩)

/-- Lookup of `CommitChangelog::get_key`: find the first processed line
starting with `key` followed by a colon and return the trimmed text after
the first colon. -/
def get_key (lines : List String) (key : String) : Option String :=
  let found := (lines.find? (fun line => strStartsWith line (key ++ ":"))).getD ""
  match split_once found ':' with
  | some p => some (strTrim p.2)
  | none => none

/-- Git commit record as produced by the VCS-ingestion collaborator
(`src/git/commit.rs`); the core reads it without modification. -/
structure Commit where
  commit_id : String
  message : String
  changelog_message : String
  raw_data : String
deriving DecidableEq

/-- Classification of a changelog item (`ChangeType` in `changelog.rs`). -/
inductive ChangeType where
  | TitleOnly
  | Other
deriving DecidableEq

/-- List of changelog items of one section. The Rust `Changes` struct is a
`HashMap<ChangeType, Vec<String>>` whose two keys are both always present
(initialized by `Changes::new`), so it is exactly a pair of lists. -/
structure Changes where
  titleOnly : List String
  other : List String
deriving DecidableEq

/-- Fresh empty bucket pair (`Changes::new`, also `Default`). -/
def Changes.new : Changes :=
  ⟨[], []⟩

/-- Item insertion (`ChangesList::add` for `Changes`): push the content to
the vector of the given change type, preserving insertion order. -/
def Changes.add (c : Changes) (t : ChangeType) (content : String) : Changes :=
  match t with
  | ChangeType.TitleOnly => { c with titleOnly := c.titleOnly ++ [content] }
  | ChangeType.Other => { c with other := c.other ++ [content] }

/-- Emptiness test (`ChangesList::is_empty` for `Changes`). -/
def Changes.isEmpty (c : Changes) : Bool :=
  c.titleOnly.isEmpty && c.other.isEmpty

/-- Concatenation of a list of strings (Rust `Vec::concat` on strings). -/
def concatStrings : List String → String
  | [] => ""
  | x :: xs => x ++ concatStrings xs

/-- Rendering of one bucket pair (`impl fmt::Display for Changes`): all
title-only fragments concatenated, then all titled fragments. -/
def Changes.render (c : Changes) : String :=
  concatStrings c.titleOnly ++ concatStrings c.other

/-- Subsection of the configured section tree. The Rust `Section<T>` type
is uniformly recursive, but configuration parsing (`template.rs`)
populates exactly one level of subsections and the engine reads only that
level, so the nested level is modelled by its own flat structure. -/
structure Subsection where
  title : String
  description : String
  changes : Changes
deriving DecidableEq

/-- Top-level section of the configured section tree (`Section<T>` with
`T = Changes`). -/
structure Section where
  title : String
  description : String
  subsections : List (String × Subsection)
  changes : Changes
deriving DecidableEq

/-- Ordered section tree (`ChangelogTemplate<T>`, an `IndexMap` keyed by
section identifier; modelled as an ordered association list). -/
def ChangelogTemplate := List (String × Section)

instance : DecidableEq ChangelogTemplate :=
  inferInstanceAs (DecidableEq (List (String × Section)))

/-- Key membership in the section tree (`IndexMap::contains_key`). -/
def containsKey (tmpl : ChangelogTemplate) (k : String) : Bool :=
  tmpl.any (fun p => p.1 == k)

/-- In-place update of the section stored under a key
(`IndexMap::get_mut` followed by mutation); order of entries is kept. -/
def updateSection (tmpl : ChangelogTemplate) (k : String) (f : Section → Section) :
    ChangelogTemplate :=
  tmpl.map (fun p => if p.1 == k then (p.1, f p.2) else p)

/-- In-place update of the subsection under a key. -/
def updateSubsection (subs : List (String × Subsection)) (k : String)
    (f : Subsection → Subsection) : List (String × Subsection) :=
  subs.map (fun p => if p.1 == k then (p.1, f p.2) else p)

/-- Subsection key membership below a named section. -/
def containsSubKey (tmpl : ChangelogTemplate) (sec subsec : String) : Bool :=
  tmpl.any (fun p => p.1 == sec && p.2.subsections.any (fun q => q.1 == subsec))

/-- Index of the last newline character in a character list. -/
def lastNlIdx : List Char → Option Nat
  | [] => none
  | c :: rest =>
    match lastNlIdx rest with
    | some i => some (i + 1)
    | none => if c == '\n' then some 0 else none

/-- Leftmost-greedy match of the regex `\n\s*\n` used by
`CommitChangelog::parse` to separate the commit-message title from its
body: at the first newline whose following maximal whitespace run contains
another newline, the match extends to the last newline of that run.
Returns the text before and after the match, or `none` when the message
contains no blank-line boundary. -/
def findBlankSplit : List Char → Option (List Char × List Char)
  | [] => none
  | c :: cs =>
    if c == '\n' then
      match lastNlIdx (cs.takeWhile isWs) with
      | some p => some ([], cs.drop (p + 1))
      | none =>
        match findBlankSplit cs with
        | some (a, b) => some (c :: a, b)
        | none => none
    else
      match findBlankSplit cs with
      | some (a, b) => some (c :: a, b)
      | none => none

/-- The `Regex::splitn(&message, 2)` step of `CommitChangelog::parse`:
first part (always present) and remainder (empty when the message has no
blank-line boundary, matching `unwrap_or_default`). -/
def splitMessage (msg : String) : String × String :=
  match findBlankSplit msg.data with
  | some (a, b) => (⟨a⟩, ⟨b⟩)
  | none => (msg, "")

/-- Space-separated join (Rust `Vec::join(" ")` modulo the separator
argument). -/
def strJoin (sep : String) : List String → String
  | [] => ""
  | [x] => x
  | x :: xs => x ++ sep ++ strJoin sep xs

/-- Title/description inheritance of `CommitChangelog::parse` lines
269-294: the title becomes the message text before the first blank-line
boundary, trimmed; when no explicit description was given, the
description becomes the trimmed remainder with every line trimmed and
rejoined with single spaces. -/
def deriveTitleDescription (message : String) (description0 : String) :
    String × String :=
  let parts := splitMessage message
  let title := strTrim parts.1
  let description :=
    if strIsEmpty description0 then
      strJoin " " ((rustLines (strTrim parts.2)).map strTrim)
    else description0
  (title, description)

/-- Condition under which `CommitChangelog::parse` derives title and
description from the commit message (line 270-273 of `changelog.rs`). -/
def derivationTriggered (inherit title_is_enough title0 : String) : Bool :=
  inherit == "all" || inherit == "title" ||
    (!(strIsEmpty title_is_enough) && strIsEmpty title0)

/-- Split of the `section` value at the first colon with trimming
(`section.split_once(':')` in `CommitChangelog::parse`); without a colon
the subsection part is empty, meaning the top-level section. -/
def splitSection (s : String) : String × String :=
  match split_once s ':' with
  | some p => (strTrim p.1, strTrim p.2)
  | none => (s, "")

/-- Routing decision of the filter block of `CommitChangelog::parse`
(lines 213-237): with no requested project the block is skipped; with a
requested project the effective project (forced default, else the
entry's own `project` key) is validated and compared with the filter. -/
inductive Route where
  | proceed
  | drop
  | err (msg : String)

/-- Sentinel installed for check runs in multi-project repositories. -/
def FORCE_CHECK_ALL_PROJECTS : String := "force_check_all_projects"

/-- Effective project of one commit: the active default overrides the
commit's own metadata; without an active default the `project` key of the
processed changelog lines is used. -/
def effectiveProject (lines : List String) (default? : Option String) :
    Option String :=
  match default? with
  | some d => some d
  | none => get_key lines "project"

/-- Filter block of `CommitChangelog::parse`. -/
def routeProject (lines : List String) (commit : Commit)
    (allowed : List String) (project? : Option String)
    (default? : Option String) : Route :=
  match project? with
  | none => Route.proceed
  | some project =>
    match effectiveProject lines default? with
    | none =>
      Route.err ("Missing 'project' key in changelog message:\n>>> " ++ commit.raw_data)
    | some changelogProject =>
      if !(allowed.contains changelogProject) then
        Route.err ("Incorrect (not allowed in config file) project name '"
          ++ changelogProject ++ "' in changelog message:\n>>> " ++ commit.raw_data)
      else if changelogProject != project && project != FORCE_CHECK_ALL_PROJECTS then
        Route.drop
      else Route.proceed

/-- Classification and rendering of one entry (lines 296-318 of
`changelog.rs`): a non-empty title is rendered with `* ` when the entry
is title-only, with `#### `/`### ` otherwise, and a usable description is
appended as a paragraph. -/
def classifyChange (title description title_is_enough sub_section : String) :
    ChangeType × String :=
  let base :=
    if !(strIsEmpty title) then
      let pfx :=
        if !(strIsEmpty title_is_enough) || strIsEmpty description then
          (ChangeType.TitleOnly, "* ")
        else if !(strIsEmpty sub_section) then (ChangeType.Other, "#### ")
        else (ChangeType.Other, "### ")
      (pfx.1, pfx.2 ++ title ++ "\n\n")
    else (ChangeType.Other, "")
  if !(strIsEmpty description) && strIsEmpty title_is_enough then
    (base.1, base.2 ++ description ++ "\n\n")
  else base

/-- Insertion of the rendered fragment into the section or subsection
bucket (lines 320-335). The Rust code reaches the subsection through
`.expect(...)`, panicking when the subsection key is absent; that
unguarded lookup is surfaced here as an error value. -/
def insertChange (tmpl : ChangelogTemplate) (sec sub_section : String)
    (ct : ChangeType) (content : String) : Except String ChangelogTemplate :=
  if strIsEmpty sub_section then
    Except.ok (updateSection tmpl sec
      (fun s => { s with changes := s.changes.add ct content }))
  else if containsSubKey tmpl sec sub_section then
    Except.ok (updateSection tmpl sec
      (fun s => { s with subsections := (updateSubsection s.subsections sub_section
        (fun q => { q with changes := q.changes.add ct content })) }))
  else Except.error ("panic: no entry found for subsection key '" ++ sub_section ++ "'")

/-- Body of `CommitChangelog::parse` after the filter block: key
extraction, section validation, title/description inheritance,
classification and insertion. -/
def parseBody (lines : List String) (commit : Commit)
    (tmpl : ChangelogTemplate) : Except String ChangelogTemplate :=
  let title0 := (get_key lines "title").getD ""
  let description0 := (get_key lines "description").getD ""
  let title_is_enough := (get_key lines "title-is-enough").getD ""
  let inherit := (get_key lines "inherit").getD ""
  match get_key lines "section" with
  | none =>
    Except.error ("Missing 'section' key in changelog message:\n>>> " ++ commit.raw_data)
  | some section0 =>
    let sp := splitSection section0
    if !(containsKey tmpl sp.1) then
      if strIsEmpty sp.1 then
        Except.error ("Empty section in changelog message:\n>>> " ++ commit.raw_data)
      else
        Except.error ("Unknown section '" ++ sp.1 ++ "' in changelog message:\n>>> "
          ++ commit.raw_data)
    else
      let td :=
        if derivationTriggered inherit title_is_enough title0 then
          deriveTitleDescription commit.message description0
        else (title0, description0)
      let cc := classifyChange td.1 td.2 title_is_enough sp.2
      insertChange tmpl sp.1 sp.2 cc.1 cc.2

/-- Full `CommitChangelog::parse` (the per-commit step shared by the
generate and check passes): processed changelog lines equal to the single
word `skip` short-circuit to success before any validation; otherwise the
filter block routes the entry and the body aggregates it. -/
def CommitChangelog.parse (commit : Commit) (tmpl : ChangelogTemplate)
    (allowed : List String) (project? : Option String)
    (default? : Option String) : Except String ChangelogTemplate :=
  let lines := changelogLines commit.changelog_message
  if lines.length == 1 && (lines.headD "") == "skip" then Except.ok tmpl
  else
    match routeProject lines commit allowed project? default? with
    | Route.err msg => Except.error msg
    | Route.drop => Except.ok tmpl
    | Route.proceed => parseBody lines commit tmpl

/-- Caller-selected command (`config.rs`). The `InitGhAction` command does
not reach the changelog engine and is omitted. -/
inductive Command where
  | Check
  | Generate
deriving DecidableEq, BEq

/-- Settings of `Changelog::generate` taken from the parsed template
(`template.rs` `ProjectsSettings`): the configured project names (the
engine only queries key membership and emptiness of the map, so the
directory lists are dropped), the optional cutover commit id and the
optional default project. -/
structure Settings where
  projects : List String
  since_commit : Option String
  default_project : Option String

/-- One iteration of the default-project bookkeeping at the top of the
commit loop of `Changelog::generate` (lines 72-81): once the cutover
commit has been seen in an earlier iteration, the configured default
project becomes active; seeing the cutover commit arms the flag for the
following iterations. The first component is the `default_project` value
passed to `CommitChangelog::parse` for the current commit. -/
def routeStep (useDefault : Bool) (cfg : Option String) (since : String)
    (st : Option String × Bool) (c : Commit) : Option String × Bool :=
  let dp := if useDefault && st.2 then cfg else st.1
  let sd := if useDefault && (c.commit_id == since) then true else st.2
  (dp, sd)

/-- Commit loop of `Changelog::generate`: thread the routing state and the
section tree through `CommitChangelog::parse`; the first error aborts the
pass, leaving the tree as mutated so far. -/
def processCommits (allowed : List String) (project? : Option String)
    (useDefault : Bool) (cfg : Option String) (since : String) :
    Option String × Bool → ChangelogTemplate → List Commit →
    Option String × ChangelogTemplate
  | _, tmpl, [] => (none, tmpl)
  | st, tmpl, c :: rest =>
    let st' := routeStep useDefault cfg since st c
    match CommitChangelog.parse c tmpl allowed project? st'.1 with
    | Except.error e => (some e, tmpl)
    | Except.ok t' => processCommits allowed project? useDefault cfg since st' t' rest

/-- The `default_project` value in effect while `Changelog::generate`
processes the commit at index `i` (the routing state projection of the
loop above, obtained by folding its step over the first `i + 1` commits). -/
def defaultForCommit (useDefault : Bool) (cfg : Option String) (since : String)
    (commits : List Commit) (i : Nat) : Option String :=
  ((commits.take (i + 1)).foldl (routeStep useDefault cfg since) (none, false)).1

/-- Rendering of one section (lines 105-146 of `changelog.rs`): a `## `
header (with optional description) when the section or one of its
subsections has changes, the section's own bucket, then every subsection
with a `### ` header when it has changes followed unconditionally by its
bucket. -/
def renderSection (sec : Section) : String :=
  let headerPart :=
    if !(sec.changes.isEmpty) || !(sec.subsections.isEmpty) then
      let printHeader :=
        !(sec.changes.isEmpty) || sec.subsections.any (fun q => !(q.2.changes.isEmpty))
      if printHeader then
        "## " ++ sec.title ++ "\n\n" ++
          (if !(strIsEmpty sec.description) then sec.description ++ "\n\n" else "")
      else ""
    else ""
  let changesPart := if !(sec.changes.isEmpty) then sec.changes.render else ""
  let subsPart :=
    if !(sec.subsections.isEmpty) then
      concatStrings (sec.subsections.map (fun q =>
        (if !(q.2.changes.isEmpty) then
          "### " ++ q.2.title ++ "\n\n" ++
            (if !(strIsEmpty q.2.description) then q.2.description ++ "\n\n" else "")
        else "") ++ q.2.changes.render))
    else ""
  headerPart ++ changesPart ++ subsPart

/-- Final rendering pass of `Changelog::generate` (lines 102-150): the
section tree in configured order between the fixed delimiter lines. -/
def renderTemplate (tmpl : ChangelogTemplate) : String :=
  "============================================\n\n" ++
    concatStrings (tmpl.map (fun p => renderSection p.2)) ++
    "============================================"

/-- Continuation of `Changelog::generate` after the requested-project
validation: install the force-check-all sentinel for check runs in
multi-project repositories, run the commit loop and render (check runs
return the empty string). -/
def Changelog.generateAfterCheck (settings : Settings) (tmpl : ChangelogTemplate)
    (project? : Option String) (command : Command) (commits : List Commit) :
    Except String String × ChangelogTemplate :=
  let allowed := settings.projects
  let project? :=
    if command == Command.Check && !(allowed.isEmpty) then
      some FORCE_CHECK_ALL_PROJECTS
    else project?
  match processCommits allowed project? settings.default_project.isSome
      settings.default_project ((settings.since_commit).getD "") (none, false)
      tmpl commits with
  | (some e, t) => (Except.error e, t)
  | (none, t) =>
    if command == Command.Check then (Except.ok "", t)
    else (Except.ok (renderTemplate t), t)

/-- `Changelog::generate`: validate a caller-requested project name
against the configured project set before anything else, then run the
pass. The section tree is returned alongside the result, mirroring the
`&mut` template of the Rust implementation. -/
def Changelog.generate (settings : Settings) (tmpl : ChangelogTemplate)
    (project? : Option String) (command : Command) (commits : List Commit) :
    Except String String × ChangelogTemplate :=
  match project? with
  | some projectName =>
    if !((settings.projects).contains projectName) then
      (Except.error ("Project '" ++ projectName ++ "' not configured in config file"), tmpl)
    else Changelog.generateAfterCheck settings tmpl project? command commits
  | none => Changelog.generateAfterCheck settings tmpl project? command commits

/-- Scalar values of the minimal YAML fragment needed by the strict
metadata schema of `src/changelog/parser.rs`. -/
inductive YamlVal where
  | str (s : String)
  | boolV (b : Bool)
deriving DecidableEq

/-- Field set of the `Changelog` struct of `src/changelog/parser.rs`
(its serde field names, including the backwards-compatibility field
`inherit`; the `projects` field carries `#[serde(skip)]` and is never
deserialized from a map). -/
def changelogFieldNames : List String :=
  ["skip", "project", "section", "title", "title-is-enough", "description", "inherit"]

/-- Deserialized form of the `Changelog` struct of
`src/changelog/parser.rs` (the Rust field `section` is spelt
`sectionName` here because `section` is a Lean keyword). -/
structure SchemaChangelog where
  skip : Bool
  project : Option String
  sectionName : String
  title : Option String
  title_is_enough : Bool
  description : Option String
  inherit : Option String
deriving DecidableEq

/-- Optional string field extraction (serde `Option<String>`). -/
def getStrField (entries : List (String × YamlVal)) (k : String) :
    Except String (Option String) :=
  match entries.find? (fun e => e.1 == k) with
  | none => Except.ok none
  | some (_, YamlVal.str s) => Except.ok (some s)
  | some (_, YamlVal.boolV _) => Except.error ("invalid type for field `" ++ k ++ "`")

/-- Defaulted boolean field extraction (serde `#[serde(default)] bool`). -/
def getBoolField (entries : List (String × YamlVal)) (k : String) :
    Except String Bool :=
  match entries.find? (fun e => e.1 == k) with
  | none => Except.ok false
  | some (_, YamlVal.boolV b) => Except.ok b
  | some (_, YamlVal.str _) => Except.error ("invalid type for field `" ++ k ++ "`")

/-- Map-shaped deserialization of the `Changelog` struct of
`src/changelog/parser.rs` under `#[serde(deny_unknown_fields)]`: the
first key outside the declared field set is a hard error, `section` is
required, the boolean fields default to `false`. Duplicate keys (also an
error in serde) are not modelled, as no claim exercises them. -/
def deserializeChangelogMap (entries : List (String × YamlVal)) :
    Except String SchemaChangelog :=
  match entries.find? (fun e => !(changelogFieldNames.contains e.1)) with
  | some e => Except.error ("unknown field `" ++ e.1 ++ "`")
  | none =>
    match getBoolField entries "skip", getStrField entries "project",
        getStrField entries "section", getStrField entries "title",
        getBoolField entries "title-is-enough", getStrField entries "description",
        getStrField entries "inherit" with
    | Except.ok sk, Except.ok pr, Except.ok sec?, Except.ok ti,
        Except.ok tie, Except.ok de, Except.ok inh =>
      match sec? with
      | none => Except.error "missing field `section`"
      | some sec => Except.ok ⟨sk, pr, sec, ti, tie, de, inh⟩
    | Except.error e, _, _, _, _, _, _ => Except.error e
    | _, Except.error e, _, _, _, _, _ => Except.error e
    | _, _, Except.error e, _, _, _, _ => Except.error e
    | _, _, _, Except.error e, _, _, _ => Except.error e
    | _, _, _, _, Except.error e, _, _ => Except.error e
    | _, _, _, _, _, Except.error e, _ => Except.error e
    | _, _, _, _, _, _, Except.error e => Except.error e

deriving instance DecidableEq for Except

/-- Example section without subsections, as built from configuration. -/
def secFeatures : Section :=
  ⟨"New features", "", [], Changes.new⟩

/-- Example section with one subsection and a description, as built from
configuration. -/
def secSecurity : Section :=
  ⟨"Security", "This section contains very important security-related changes.",
    [("vuln_fixes", ⟨"Fixed vulnerabilities", "", Changes.new⟩)], Changes.new⟩

/-- Example configured section tree with empty buckets. -/
def tmplEx : ChangelogTemplate :=
  [("security", secSecurity), ("features", secFeatures)]

lemma changelogLines_skip : changelogLines "skip" = ["skip"] := by decide

lemma parse_skip_eq (c : Commit) (tmpl : ChangelogTemplate) (allowed : List String)
    (project? default? : Option String) (h : c.changelog_message = "skip") :
    CommitChangelog.parse c tmpl allowed project? default? = Except.ok tmpl := by
  unfold CommitChangelog.parse
  rw [h]
  rfl

lemma generateAfterCheck_skip (c : Commit) (settings : Settings)
    (tmpl : ChangelogTemplate) (project? : Option String) (command : Command)
    (h : c.changelog_message = "skip") :
    Changelog.generateAfterCheck settings tmpl project? command [c]
      = Changelog.generateAfterCheck settings tmpl project? command [] := by
  unfold Changelog.generateAfterCheck
  simp only [processCommits, parse_skip_eq _ _ _ _ _ h]

/-- C2: a commit whose (trimmed, as delivered by the commit splitter)
metadata block is exactly the literal `skip` leaves the section tree
untouched in the per-commit step, and removing such a commit from the
commit list does not change the result of `Changelog::generate` in either
the generate or the check mode. -/
theorem skip_commit_contributes_nothing (c : Commit) (h : c.changelog_message = "skip") :
    (∀ (tmpl : ChangelogTemplate) (allowed : List String)
        (project? default? : Option String),
      CommitChangelog.parse c tmpl allowed project? default? = Except.ok tmpl)
    ∧ (∀ (settings : Settings) (tmpl : ChangelogTemplate)
        (project? : Option String) (command : Command),
      Changelog.generate settings tmpl project? command [c]
        = Changelog.generate settings tmpl project? command []) := by
  constructor
  · intro tmpl allowed project? default?
    exact parse_skip_eq c tmpl allowed project? default? h
  · intro settings tmpl project? command
    unfold Changelog.generate
    cases project? with
    | none => exact generateAfterCheck_skip c settings tmpl none command h
    | some name =>
      by_cases hc : (settings.projects).contains name
      · simp only [hc]
        exact generateAfterCheck_skip c settings tmpl (some name) command h
      · simp only [Bool.not_eq_true] at hc
        simp only [hc, Bool.not_false, eq_self_iff_true, if_true]

/-- Witness for C2 at a concrete skip commit. -/
theorem skip_commit_contributes_nothing_witness :
    CommitChangelog.parse ⟨"w2", "msg", "skip", "RAW"⟩ tmplEx ["main"] (some "main") none
      = Except.ok tmplEx :=
  (skip_commit_contributes_nothing ⟨"w2", "msg", "skip", "RAW"⟩ rfl).1
    tmplEx ["main"] (some "main") none

/-- C9: the `skip` short-circuit of `CommitChangelog::parse` returns
success before any validation: the result is `ok` for every section tree
(including one not containing any section of the metadata), for every
allowed-projects set (including one not containing the commit's project)
and for every filter and default, so a skip commit can never raise an
error in either mode. -/
theorem skip_commit_never_errors (c : Commit) (tmpl : ChangelogTemplate)
    (allowed : List String) (project? default? : Option String)
    (h : c.changelog_message = "skip") :
    (CommitChangelog.parse c tmpl allowed project? default?).isOk = true := by
  rw [parse_skip_eq c tmpl allowed project? default? h]
  rfl

/-- Witness for C9: a skip commit together with an empty configured
project set, a filter naming an unconfigured project and an empty section
tree, all of which would be hard errors for a non-skip commit. -/
theorem skip_commit_never_errors_witness :
    (CommitChangelog.parse ⟨"w9", "msg", "skip", "RAW"⟩ [] [] (some "ghost") none).isOk
      = true :=
  skip_commit_never_errors ⟨"w9", "msg", "skip", "RAW"⟩ [] [] (some "ghost") none rfl

/-- C10: a caller-requested project name absent from the configured
project set makes `Changelog::generate` fail with the configuration error
before any commit is read (the result is this error for every commit
list) and with the section tree returned unchanged, under both commands. -/
theorem unknown_requested_project_early_error (settings : Settings)
    (tmpl : ChangelogTemplate) (name : String) (command : Command)
    (commits : List Commit) (h : (settings.projects).contains name = false) :
    Changelog.generate settings tmpl (some name) command commits
      = (Except.error ("Project '" ++ name ++ "' not configured in config file"), tmpl) := by
  unfold Changelog.generate
  simp only [h, Bool.not_false, if_true]

/-- Witness for C10 with a concrete configuration, an unconfigured name,
check mode and a non-empty commit list. -/
theorem unknown_requested_project_early_error_witness :
    Changelog.generate ⟨["main"], none, none⟩ tmplEx (some "ghost") Command.Check
        [⟨"w10", "msg", "section: features", "RAW"⟩]
      = (Except.error ("Project 'ghost' not configured in config file"), tmplEx) :=
  unknown_requested_project_early_error ⟨["main"], none, none⟩ tmplEx "ghost"
    Command.Check [⟨"w10", "msg", "section: features", "RAW"⟩] (by decide)

lemma foldl_add_titleOnly (ops : List (ChangeType × String)) (c : Changes) :
    (ops.foldl (fun c p => c.add p.1 p.2) c).titleOnly
      = c.titleOnly ++ ops.filterMap (fun p =>
          match p.1 with
          | ChangeType.TitleOnly => some p.2
          | ChangeType.Other => none) := by
  induction ops generalizing c with
  | nil => simp
  | cons p rest ih =>
    rw [List.foldl_cons, ih, List.filterMap_cons]
    cases p with
    | mk t s =>
      cases t with
      | TitleOnly => simp [Changes.add]
      | Other => simp [Changes.add]

lemma foldl_add_other (ops : List (ChangeType × String)) (c : Changes) :
    (ops.foldl (fun c p => c.add p.1 p.2) c).other
      = c.other ++ ops.filterMap (fun p =>
          match p.1 with
          | ChangeType.TitleOnly => none
          | ChangeType.Other => some p.2) := by
  induction ops generalizing c with
  | nil => simp
  | cons p rest ih =>
    rw [List.foldl_cons, ih, List.filterMap_cons]
    cases p with
    | mk t s =>
      cases t with
      | TitleOnly => simp [Changes.add]
      | Other => simp [Changes.add]

/-- C4: whatever interleaving of additions builds a `Changes` bucket, its
rendering is the concatenation of all title-only fragments in insertion
order followed by all titled-with-description fragments in insertion
order, so every title-only fragment precedes every titled fragment. -/
theorem render_title_only_before_titled (ops : List (ChangeType × String)) :
    (ops.foldl (fun c p => c.add p.1 p.2) Changes.new).render
      = concatStrings (ops.filterMap (fun p =>
          match p.1 with
          | ChangeType.TitleOnly => some p.2
          | ChangeType.Other => none))
        ++ concatStrings (ops.filterMap (fun p =>
          match p.1 with
          | ChangeType.TitleOnly => none
          | ChangeType.Other => some p.2)) := by
  unfold Changes.render
  rw [foldl_add_titleOnly, foldl_add_other]
  rfl

lemma changes_render_of_isEmpty (c : Changes) (h : c.isEmpty = true) :
    c.render = "" := by
  cases c with
  | mk l1 l2 =>
    unfold Changes.isEmpty at h
    simp only [Bool.and_eq_true, List.isEmpty_iff] at h
    rw [h.1, h.2]
    rfl

lemma concatStrings_subs_empty (subs : List (String × Subsection))
    (h : subs.all (fun q => q.2.changes.isEmpty) = true) :
    concatStrings (subs.map (fun q =>
      (if !(q.2.changes.isEmpty) then
        "### " ++ q.2.title ++ "\n\n" ++
          (if !(strIsEmpty q.2.description) then q.2.description ++ "\n\n" else "")
      else "") ++ q.2.changes.render)) = "" := by
  induction subs with
  | nil => rfl
  | cons q rest ih =>
    rw [List.all_cons, Bool.and_eq_true] at h
    rw [List.map_cons]
    show ((if !(q.2.changes.isEmpty) then _ else "") ++ q.2.changes.render)
        ++ concatStrings _ = ""
    rw [ih h.2, h.1, changes_render_of_isEmpty _ h.1]
    rfl

lemma renderSection_of_empty (sec : Section) (h1 : sec.changes.isEmpty = true)
    (h2 : sec.subsections.all (fun q => q.2.changes.isEmpty) = true) :
    renderSection sec = "" := by
  unfold renderSection
  have hany : sec.subsections.any (fun q => !(q.2.changes.isEmpty)) = false := by
    rw [List.any_eq_false]
    intro q hq
    rw [List.all_eq_true] at h2
    simp [h2 q hq]
  rw [h1, hany, changes_render_of_isEmpty _ h1]
  by_cases hs : sec.subsections.isEmpty
  · simp [hs]
  · simp only [hs, h1]
    rw [concatStrings_subs_empty sec.subsections h2]
    simp

/-- Predicate on a section tree freshly built from configuration: every
bucket of every section and subsection is still empty. -/
def bucketsEmpty (tmpl : ChangelogTemplate) : Bool :=
  tmpl.all (fun p => p.2.changes.isEmpty
    && p.2.subsections.all (fun q => q.2.changes.isEmpty))

lemma renderTemplate_of_empty (tmpl : ChangelogTemplate)
    (h : bucketsEmpty tmpl = true) :
    renderTemplate tmpl
      = "============================================\n\n"
        ++ "============================================" := by
  unfold renderTemplate
  have : concatStrings (tmpl.map (fun p => renderSection p.2)) = "" := by
    unfold bucketsEmpty at h
    induction tmpl with
    | nil => rfl
    | cons p rest ih =>
      rw [List.all_cons, Bool.and_eq_true] at h
      rw [Bool.and_eq_true] at h
      rw [List.map_cons]
      show renderSection p.2 ++ concatStrings _ = ""
      rw [ih h.2, renderSection_of_empty p.2 h.1.1 h.1.2]
      rfl
  rw [this]
  rfl

/-- C8: generating from an empty commit list against a configuration
whose buckets are all still empty yields exactly the opening delimiter
line, a blank line, and the closing delimiter line: no section headers
and no change fragments in between, and the tree is unchanged. -/
theorem empty_commit_list_renders_delimiters_only (settings : Settings)
    (tmpl : ChangelogTemplate) (h : bucketsEmpty tmpl = true) :
    Changelog.generate settings tmpl none Command.Generate []
      = (Except.ok ("============================================\n\n"
          ++ "============================================"), tmpl) := by
  unfold Changelog.generate Changelog.generateAfterCheck
  have hcmd : (Command.Generate == Command.Check) = false := by decide
  simp [processCommits, renderTemplate_of_empty tmpl h, hcmd]

/-- Witness for C8 at the example configuration (a section with a
subsection and a section without). -/
theorem empty_commit_list_renders_delimiters_only_witness :
    Changelog.generate ⟨["main"], some "abc", some "main"⟩ tmplEx none
        Command.Generate []
      = (Except.ok ("============================================\n\n"
          ++ "============================================"), tmplEx) :=
  empty_commit_list_renders_delimiters_only ⟨["main"], some "abc", some "main"⟩
    tmplEx (by decide)

lemma breakAt_not_mem (c : Char) (l : List Char) (h : c ∉ l) :
    breakAt c l = (l, []) := by
  induction l with
  | nil => rfl
  | cons x xs ih =>
    have hx : (x == c) = false := by
      rw [beq_eq_false_iff_ne]
      intro he
      exact h (he ▸ List.mem_cons_self x xs)
    have hxs : c ∉ xs := fun hm => h (List.mem_cons_of_mem x hm)
    simp [breakAt, hx, ih hxs]

lemma breakAt_boundary (c : Char) (a b : List Char) (h : c ∉ a) :
    breakAt c (a ++ c :: b) = (a, c :: b) := by
  induction a with
  | nil => simp [breakAt]
  | cons x xs ih =>
    have hx : (x == c) = false := by
      rw [beq_eq_false_iff_ne]
      intro he
      exact h (he ▸ List.mem_cons_self x xs)
    have hxs : c ∉ xs := fun hm => h (List.mem_cons_of_mem x hm)
    simp [breakAt, hx, ih hxs]

/-- C3 counterexample: the aggregation step does not split the `section`
value on a dot; `security.vuln_fixes` stays a single unknown section key
with an empty subsection part instead of splitting into
`(security, vuln_fixes)`. -/
theorem section_split_dot_cex :
    splitSection "security.vuln_fixes" = ("security.vuln_fixes", "")
    ∧ splitSection "security.vuln_fixes" ≠ ("security", "vuln_fixes") := by
  exact ⟨by decide, by decide⟩

/-- C3 amended: the aggregation step splits the `section` value on the
first `:` (colon) character, trimming both parts, and a value without a
colon addresses the top-level section (empty subsection key). -/
theorem section_split_on_first_colon :
    (∀ a b : List Char, ':' ∉ a →
      splitSection ⟨a ++ ':' :: b⟩ = (strTrim ⟨a⟩, strTrim ⟨b⟩))
    ∧ (∀ s : String, ':' ∉ s.data → splitSection s = (s, "")) := by
  constructor
  · intro a b ha
    unfold splitSection split_once
    rw [show (String.mk (a ++ ':' :: b)).data = a ++ ':' :: b from rfl]
    rw [breakAt_boundary ':' a b ha]
  · intro s hs
    unfold splitSection split_once
    rw [breakAt_not_mem ':' s.data hs]

/-- Witness for the amended C3 at the section value
`security: vuln_fixes ` (with spaces that the split trims away). -/
theorem section_split_on_first_colon_witness :
    splitSection ⟨"security".data ++ ':' :: " vuln_fixes ".data⟩
      = (strTrim ⟨"security".data⟩, strTrim ⟨" vuln_fixes ".data⟩) :=
  section_split_on_first_colon.1 "security".data " vuln_fixes ".data (by decide)

/-- C5 counterexample: with the requested-project filter unset (`None`),
a commit of a multi-project configuration carrying no `project` key and
no active default is processed without any error; project attribution is
skipped entirely and only the section rules apply. -/
theorem filter_unset_missing_project_ok_cex :
    CommitChangelog.parse ⟨"c5", "Title\n\nBody", "section: features", "RAW5"⟩
        tmplEx ["main", "lib"] none none
      = Except.ok [("security", secSecurity),
          ("features", ⟨"New features", "", [], ⟨[], [""]⟩⟩)] := by decide

lemma skip_cond_iff (l : List String) :
    ((l.length == 1 && (l.headD "") == "skip") = true) ↔ l = ["skip"] := by
  match l with
  | [] => simp
  | [x] => simp [List.headD]
  | x :: y :: rest => simp [List.length]

/-- C5 amended: the ambiguous-attribution error fires when the routing
filter is set (a concrete project name, or the force-check-all sentinel
that check mode installs whenever projects are configured): a non-skip
commit without a `project` key and without an active default then fails
with the missing-project error; with the filter genuinely unset the
commit is processed without project validation (see the counterexample). -/
theorem missing_project_error_requires_filter (c : Commit)
    (tmpl : ChangelogTemplate) (allowed : List String) (name : String)
    (hs : changelogLines c.changelog_message ≠ ["skip"])
    (hp : get_key (changelogLines c.changelog_message) "project" = none) :
    CommitChangelog.parse c tmpl allowed (some name) none
      = Except.error ("Missing 'project' key in changelog message:\n>>> "
          ++ c.raw_data) := by
  unfold CommitChangelog.parse
  have hcond : ((changelogLines c.changelog_message).length == 1
      && ((changelogLines c.changelog_message).headD "") == "skip") = false := by
    rw [Bool.eq_false_iff]
    intro hc
    exact hs ((skip_cond_iff _).mp hc)
  simp only [hcond, Bool.false_eq_true, if_false, routeProject, effectiveProject, hp]

/-- Witness for the amended C5: a concrete commit without a `project` key
under a set filter fails with the missing-project error. -/
theorem missing_project_error_requires_filter_witness :
    CommitChangelog.parse ⟨"w5", "Title\n\nBody", "section: features", "RAW5W"⟩
        tmplEx ["main"] (some "main") none
      = Except.error ("Missing 'project' key in changelog message:\n>>> "
          ++ "RAW5W") :=
  missing_project_error_requires_filter
    ⟨"w5", "Title\n\nBody", "section: features", "RAW5W"⟩
    tmplEx ["main"] "main" (by decide) (by decide)

/-- C6 counterexample: the schema of `parser.rs` accepts the key
`inherit`, which lies outside the recognized set named by the claim, so
not every unrecognized key is a hard parse error; moreover the line-based
parser actually wired into commit processing silently ignores the
misspelt key `desciption` instead of rejecting it. -/
theorem unknown_key_strictness_cex :
    deserializeChangelogMap
        [("section", YamlVal.str "features"), ("inherit", YamlVal.str "all")]
      = Except.ok ⟨false, none, "features", none, false, none, some "all"⟩
    ∧ ¬ ("inherit" ∈ ["skip", "project", "section", "title",
        "title-is-enough", "description"])
    ∧ (CommitChangelog.parse ⟨"c6", "T\n\nB",
        "section: features\ndesciption: oops", "RAW6"⟩ tmplEx [] none none).isOk
        = true := by
  exact ⟨by decide, by decide, by decide⟩

/-- C6 amended: in the strict serde-based schema, any key outside the
declared field set (the claim's six keys plus the backwards-compatibility
key `inherit`) is a hard parse error; the line-based parser used in the
processing path does not reject unrecognized keys at all. -/
theorem unknown_key_is_schema_error (entries : List (String × YamlVal))
    (h : ∃ p ∈ entries, changelogFieldNames.contains p.1 = false) :
    (deserializeChangelogMap entries).isOk = false := by
  obtain ⟨p, hmem, hp⟩ := h
  have hsome : (entries.find? (fun e => !(changelogFieldNames.contains e.1))).isSome
      = true := by
    rw [List.find?_isSome]
    exact ⟨p, hmem, by rw [hp]; rfl⟩
  obtain ⟨e, he⟩ := Option.isSome_iff_exists.mp hsome
  unfold deserializeChangelogMap
  rw [he]
  rfl

/-- Witness for the amended C6: the misspelt key `desciption` makes the
schema-based deserialization fail. -/
theorem unknown_key_is_schema_error_witness :
    (deserializeChangelogMap [("section", YamlVal.str "features"),
        ("desciption", YamlVal.str "oops")]).isOk = false :=
  unknown_key_is_schema_error _
    ⟨("desciption", YamlVal.str "oops"), by decide, by decide⟩

lemma foldl_routeStep_no_match (cfg : Option String) (since : String)
    (pre : List Commit) (dp : Option String)
    (h : ∀ c ∈ pre, c.commit_id ≠ since) :
    pre.foldl (routeStep true cfg since) (dp, false) = (dp, false) := by
  induction pre generalizing dp with
  | nil => rfl
  | cons c rest ih =>
    have hc : (c.commit_id == since) = false := by
      rw [beq_eq_false_iff_ne]
      exact h c (List.mem_cons_self c rest)
    rw [List.foldl_cons]
    have hstep : routeStep true cfg since (dp, false) c = (dp, false) := by
      simp [routeStep, hc]
    rw [hstep]
    exact ih dp (fun x hx => h x (List.mem_cons_of_mem c hx))

lemma foldl_routeStep_armed_cfg (cfg : Option String) (since : String)
    (l : List Commit) :
    l.foldl (routeStep true cfg since) (cfg, true) = (cfg, true) := by
  induction l with
  | nil => rfl
  | cons c rest ih =>
    rw [List.foldl_cons]
    have hstep : routeStep true cfg since (cfg, true) c = (cfg, true) := by
      simp [routeStep]
    rw [hstep, ih]

lemma foldl_routeStep_armed (cfg : Option String) (since : String)
    (l : List Commit) (dp : Option String) (hne : l ≠ []) :
    l.foldl (routeStep true cfg since) (dp, true) = (cfg, true) := by
  cases l with
  | nil => exact absurd rfl hne
  | cons c rest =>
    rw [List.foldl_cons]
    have hstep : routeStep true cfg since (dp, true) c = (cfg, true) := by
      simp [routeStep]
    rw [hstep]
    exact foldl_routeStep_armed_cfg cfg since rest

/-- C1: with a configured default project `P` and cutover commit id `C`,
the routing state of the generate loop passes `some P` as the active
default to the per-commit step for every commit strictly after the first
commit whose id equals `C` in the newest-first iteration, and still
passes `none` while processing the cutover commit itself.  Through
`effectiveProject` (the attribution step of the filter block), an active
default `some P` overrides whatever project the commit's metadata names,
while an inactive default leaves attribution to the commit's own
`project` key. -/
theorem cutover_default_attribution (P C : String) (pre post : List Commit)
    (ck : Commit) (m : Nat)
    (hpre : ∀ c ∈ pre, c.commit_id ≠ C) (hck : ck.commit_id = C)
    (hm : m < post.length) :
    defaultForCommit true (some P) C (pre ++ ck :: post) (pre.length + 1 + m) = some P
    ∧ defaultForCommit true (some P) C (pre ++ ck :: post) pre.length = none
    ∧ (∀ lines, effectiveProject lines (some P) = some P)
    ∧ (∀ lines, effectiveProject lines none = get_key lines "project") := by
  have hckb : (ck.commit_id == C) = true := by
    rw [beq_iff_eq]
    exact hck
  have hstep0 : routeStep true (some P) C (none, false) ck = (none, true) := by
    simp [routeStep, hckb]
  refine ⟨?_, ?_, fun lines => rfl, fun lines => rfl⟩
  · unfold defaultForCommit
    have h1 : pre.length + 1 + m + 1 = pre.length + (m + 2) := by omega
    have ht : (pre ++ ck :: post).take (pre.length + 1 + m + 1)
        = pre ++ ck :: post.take (m + 1) := by
      rw [h1, List.take_append]
      rfl
    rw [ht, List.foldl_append,
      foldl_routeStep_no_match (some P) C pre none hpre, List.foldl_cons, hstep0]
    have hne : post.take (m + 1) ≠ [] := by
      cases post with
      | nil => simp at hm
      | cons q qs => simp [List.take]
    rw [foldl_routeStep_armed (some P) C _ none hne]
  · unfold defaultForCommit
    have ht : (pre ++ ck :: post).take (pre.length + 1) = pre ++ [ck] := by
      rw [List.take_append]
      rfl
    rw [ht, List.foldl_append,
      foldl_routeStep_no_match (some P) C pre none hpre, List.foldl_cons, hstep0]
    rfl

/-- Witness for C1: in a two-commit list whose newest commit is the
cutover commit, the older commit is processed with the default `main`
active. -/
theorem cutover_default_attribution_witness :
    defaultForCommit true (some "main") "abc"
        [⟨"abc", "m1", "section: features\nproject: main", "R1"⟩,
          ⟨"old", "m2", "section: features\nproject: other", "R2"⟩] 1
      = some "main" :=
  (cutover_default_attribution "main" "abc" []
    [⟨"old", "m2", "section: features\nproject: other", "R2"⟩]
    ⟨"abc", "m1", "section: features\nproject: main", "R1"⟩ 0
    (by intro c hc; cases hc) rfl (by decide)).1

lemma derivationTriggered_none (t0 : String) :
    derivationTriggered "" "" t0 = false := rfl

lemma routeProject_raw (lines : List String) (c1 c2 : Commit)
    (allowed : List String) (project? default? : Option String)
    (hraw : c1.raw_data = c2.raw_data) :
    routeProject lines c1 allowed project? default?
      = routeProject lines c2 allowed project? default? := by
  unfold routeProject
  rw [hraw]

lemma parseBody_message_indep (lines : List String) (c1 c2 : Commit)
    (tmpl : ChangelogTemplate) (hraw : c1.raw_data = c2.raw_data)
    (htrig : derivationTriggered ((get_key lines "inherit").getD "")
        ((get_key lines "title-is-enough").getD "")
        ((get_key lines "title").getD "") = false) :
    parseBody lines c1 tmpl = parseBody lines c2 tmpl := by
  unfold parseBody
  rw [hraw]
  simp only [htrig, Bool.false_eq_true, if_false]

lemma parse_message_indep (c1 c2 : Commit) (tmpl : ChangelogTemplate)
    (allowed : List String) (project? default? : Option String)
    (hcm : c1.changelog_message = c2.changelog_message)
    (hraw : c1.raw_data = c2.raw_data)
    (hinh : get_key (changelogLines c1.changelog_message) "inherit" = none)
    (htie : get_key (changelogLines c1.changelog_message) "title-is-enough" = none) :
    CommitChangelog.parse c1 tmpl allowed project? default?
      = CommitChangelog.parse c2 tmpl allowed project? default? := by
  have htrig : derivationTriggered
      ((get_key (changelogLines c1.changelog_message) "inherit").getD "")
      ((get_key (changelogLines c1.changelog_message) "title-is-enough").getD "")
      ((get_key (changelogLines c1.changelog_message) "title").getD "") = false := by
    rw [hinh, htie]
    exact derivationTriggered_none _
  simp only [CommitChangelog.parse]
  rw [← hcm]
  rw [routeProject_raw (changelogLines c1.changelog_message) c1 c2 allowed
    project? default? hraw]
  rw [parseBody_message_indep (changelogLines c1.changelog_message) c1 c2 tmpl
    hraw htrig]

lemma lastNlIdx_none (l : List Char) (h : '\n' ∉ l) : lastNlIdx l = none := by
  induction l with
  | nil => rfl
  | cons x xs ih =>
    have hx : (x == '\n') = false := by
      rw [beq_eq_false_iff_ne]
      intro he
      exact h (he ▸ List.mem_cons_self x xs)
    have hxs : '\n' ∉ xs := fun hm => h (List.mem_cons_of_mem x hm)
    simp [lastNlIdx, ih hxs, hx]

lemma findBlankSplit_boundary (t b : List Char) (h1 : '\n' ∉ t)
    (h2 : '\n' ∉ b.takeWhile isWs) :
    findBlankSplit (t ++ '\n' :: '\n' :: b) = some (t, b) := by
  induction t with
  | nil =>
    show findBlankSplit ('\n' :: '\n' :: b) = some ([], b)
    have hwn : isWs '\n' = true := by decide
    have hrun : ('\n' :: b).takeWhile isWs = '\n' :: b.takeWhile isWs := by
      rw [List.takeWhile_cons, hwn]
      rfl
    simp [findBlankSplit, hrun, lastNlIdx, lastNlIdx_none _ h2]
  | cons x xs ih =>
    have hx : (x == '\n') = false := by
      rw [beq_eq_false_iff_ne]
      intro he
      exact h1 (he ▸ List.mem_cons_self x xs)
    have hxs : '\n' ∉ xs := fun hm => h1 (List.mem_cons_of_mem x hm)
    simp [findBlankSplit, hx, ih hxs]

lemma splitMessage_boundary (t b : List Char) (h1 : '\n' ∉ t)
    (h2 : '\n' ∉ b.takeWhile isWs) :
    splitMessage ⟨t ++ '\n' :: '\n' :: b⟩ = (⟨t⟩, ⟨b⟩) := by
  unfold splitMessage
  rw [show (String.mk (t ++ '\n' :: '\n' :: b)).data = t ++ '\n' :: '\n' :: b from rfl]
  rw [findBlankSplit_boundary t b h1 h2]

/-- C7 counterexample: an entry without an explicit `title` (and without
`inherit`/`title-is-enough`) does not receive a title derived from the
commit message: the fragment is just the explicit description, not the
heading the claim predicts from the message text `My title`. -/
theorem title_not_derived_without_trigger_cex :
    CommitChangelog.parse ⟨"c7", "My title\n\nBody text",
        "section: features\ndescription: Some text", "RAW7"⟩ tmplEx [] none none
      = Except.ok [("security", secSecurity),
          ("features", ⟨"New features", "", [], ⟨[], ["Some text\n\n"]⟩⟩)]
    ∧ CommitChangelog.parse ⟨"c7", "My title\n\nBody text",
        "section: features\ndescription: Some text", "RAW7"⟩ tmplEx [] none none
      ≠ Except.ok [("security", secSecurity),
          ("features", ⟨"New features", "", [],
            ⟨[], ["### My title\n\nSome text\n\n"]⟩⟩)] := by
  exact ⟨by decide, by decide⟩

/-- C7 amended: title/description inheritance from the commit message
runs only when `inherit` is `all` or `title`, or when `title-is-enough`
is set while `title` is absent.  Without these triggers the result is
independent of the commit message (first conjunct).  When it runs, the
message is split at the leftmost blank-line boundary of the regex
`\n\s*\n` with greedy whitespace (second conjunct), the derived title is
the part before the boundary trimmed, and a derived description is the
remainder with lines trimmed and rejoined with single spaces (third
conjunct, via `inherit: all`). -/
theorem title_derivation_conditions :
    (∀ (c : Commit) (tmpl : ChangelogTemplate) (allowed : List String)
        (project? default? : Option String) (msg2 : String),
      get_key (changelogLines c.changelog_message) "inherit" = none →
      get_key (changelogLines c.changelog_message) "title-is-enough" = none →
      CommitChangelog.parse c tmpl allowed project? default?
        = CommitChangelog.parse ⟨c.commit_id, msg2, c.changelog_message, c.raw_data⟩
            tmpl allowed project? default?)
    ∧ (∀ (t b : List Char), '\n' ∉ t → '\n' ∉ b.takeWhile isWs →
      splitMessage ⟨t ++ '\n' :: '\n' :: b⟩ = (⟨t⟩, ⟨b⟩))
    ∧ CommitChangelog.parse ⟨"c7b", "My title\n\nBody text\nmore",
          "section: features\ninherit: all", "RAW8"⟩ tmplEx [] none none
        = Except.ok [("security", secSecurity),
            ("features", ⟨"New features", "", [],
              ⟨[], ["### My title\n\nBody text more\n\n"]⟩⟩)] := by
  refine ⟨?_, ?_, by decide⟩
  · intro c tmpl allowed project? default? msg2 hinh htie
    exact parse_message_indep c ⟨c.commit_id, msg2, c.changelog_message, c.raw_data⟩
      tmpl allowed project? default? rfl rfl hinh htie
  · intro t b h1 h2
    exact splitMessage_boundary t b h1 h2

/-- Witness for the amended C7: a commit without derivation triggers
parses identically under two different commit messages. -/
theorem title_derivation_conditions_witness :
    CommitChangelog.parse
        ⟨"w7", "Msg A\n\nBody A", "section: features\ndescription: D", "RAW7W"⟩
        tmplEx [] none none
      = CommitChangelog.parse
          ⟨"w7", "Other message", "section: features\ndescription: D", "RAW7W"⟩
          tmplEx [] none none :=
  title_derivation_conditions.1
    ⟨"w7", "Msg A\n\nBody A", "section: features\ndescription: D", "RAW7W"⟩
    tmplEx [] none none "Other message" (by decide) (by decide)
